import Mathlib

/-
A formal model of `split_pdf.js` from the PDFSplitter repository.

The script has three phases executed in sequence by
`splitPdfAndCreateThumbnails`:
1. split the loaded PDF into one single-page PDF per page
   (`page_{n}_{baseName}.pdf`, written with `fs.writeFile`),
2. invoke the external rasterizer `pdftocairo` once per page
   (failures are logged and the loop continues),
3. run `renameSuffixedFiles` over the output directory, which renames
   files matching the regex `/^(page_\d+_.*?)-(\d+)(\.[^.]+)$/i` from
   `prefix-digits.ext` to `prefix.ext` unless the target already exists.

Filenames and paths are modelled as lists of characters, the filesystem
as a list of directory entries, the external collaborators (pdf-lib
primitives, `pdftocairo`, the fallible `fs` calls) as explicit
environment parameters.  Machine integers do not occur in the modelled
logic; the counters are plain naturals.
-/

namespace PDFSplitter

/-- Filenames and paths are lists of characters (JS strings). -/
abbrev FName := List Char

/-- ASCII lowercasing of a single character.  This models the
case-insensitive comparisons performed by the script (the `i` regex flag
and `String.prototype.toLowerCase`) on the ASCII letters they can meet. -/
def asciiLower (c : Char) : Char :=
  if 'A' ≤ c ∧ c ≤ 'Z' then Char.ofNat (c.toNat + 32) else c

/-- ASCII lowercasing of a string, modelling `toLowerCase` on extensions. -/
def lowerStr (s : FName) : FName := s.map asciiLower

/-- Value of a decimal digit character (left inverse of `Nat.digitChar`
on digits). -/
def charToDigit (c : Char) : Nat := c.toNat - 48

/-- Decode a list of decimal digit characters back to a natural number. -/
def decodeDigits (l : FName) : Nat :=
  l.foldl (fun acc c => acc * 10 + charToDigit c) 0

/-- Decimal rendering of a natural number, fuelled structural recursion
(the fuel is an upper bound on the value).  Models the JS template
interpolation `${pageNum}` for the positive page numbers the script
uses. -/
def natCharsAux : Nat → Nat → List Char
  | 0, _ => []
  | _ + 1, 0 => []
  | fuel + 1, n + 1 =>
      natCharsAux fuel ((n + 1) / 10) ++ [Nat.digitChar ((n + 1) % 10)]

/-- Decimal rendering of a natural number as a character list. -/
def natChars (n : Nat) : List Char := natCharsAux n n

theorem charToDigit_digitChar (d : Nat) (h : d < 10) :
    charToDigit (Nat.digitChar d) = d := by
  interval_cases d <;> rfl

theorem decodeDigits_append_singleton (l : FName) (c : Char) :
    decodeDigits (l ++ [c]) = decodeDigits l * 10 + charToDigit c := by
  simp [decodeDigits, List.foldl_append]

theorem decodeDigits_natCharsAux (fuel n : Nat) (h : n ≤ fuel) :
    decodeDigits (natCharsAux fuel n) = n := by
  induction fuel generalizing n with
  | zero =>
      interval_cases n
      rfl
  | succ fuel ih =>
      cases n with
      | zero => rfl
      | succ m =>
          have hdiv : (m + 1) / 10 ≤ fuel := by
            have : (m + 1) / 10 < m + 1 := Nat.div_lt_self (Nat.succ_pos m) (by omega)
            omega
          have hmod : (m + 1) % 10 < 10 := Nat.mod_lt _ (by omega)
          rw [natCharsAux, decodeDigits_append_singleton, ih _ hdiv,
            charToDigit_digitChar _ hmod]
          omega

theorem decodeDigits_natChars (n : Nat) : decodeDigits (natChars n) = n :=
  decodeDigits_natCharsAux n n (Nat.le_refl n)

theorem natChars_injective {a b : Nat} (h : natChars a = natChars b) : a = b := by
  have ha := decodeDigits_natChars a
  have hb := decodeDigits_natChars b
  rw [← ha, ← hb, h]

/-! ## The reconciler's filename test

The regex is `/^(page_\d+_.*?)-(\d+)(\.[^.]+)$/i` (line 20 of
`split_pdf.js`).  After the mandatory `page_` prefix (case-insensitive,
the `i` flag applies to the whole expression), the greedy `\d+` followed
by the literal `_` is deterministic (a digit is never `_`, so the `_`
must directly follow the maximal digit run), the lazy `.*?` stops at the
first hyphen from which the deterministic tail `-(\d+)(\.[^.]+)$`
matches, `\d+` followed by `\.` forces the maximal digit run directly
before a dot, and `(\.[^.]+)$` forces that dot to be the last one with a
nonempty remainder.  `.` (without the `s` flag) does not cross a line
terminator. -/

/-- A JS regex line terminator, which `.` does not match. -/
def isLineTerm (c : Char) : Bool :=
  c = '\n' || c = '\r' || c = Char.ofNat 0x2028 || c = Char.ofNat 0x2029

/-- Match of the tail `(\d+)(\.[^.]+)$` directly after the hyphen:
a maximal nonempty digit run, then the final dot, then a nonempty
dot-free extension remainder.  Returns (suffix digits, extension). -/
def suffixMatch (l : FName) : Option (FName × FName) :=
  match l.dropWhile Char.isDigit with
  | [] => none
  | c :: tail =>
      if c = '.' ∧ ¬(l.takeWhile Char.isDigit).isEmpty ∧ ¬tail.isEmpty ∧
          tail.all (fun x => x != '.') then
        some (l.takeWhile Char.isDigit, c :: tail)
      else none

/-- The lazy scan of `.*?-(\d+)(\.[^.]+)$`: find the first hyphen from
which `suffixMatch` succeeds, consuming only non-line-terminator
characters on the way.  Returns (middle, suffix digits, extension). -/
def scanMid : FName → Option (FName × FName × FName)
  | [] => none
  | c :: rest =>
      if c = '-' then
        match suffixMatch rest with
        | some (ds, ext) => some ([], ds, ext)
        | none =>
            match scanMid rest with
            | some (m, d, e) => some (c :: m, d, e)
            | none => none
      else if isLineTerm c then none
      else
        match scanMid rest with
        | some (m, d, e) => some (c :: m, d, e)
        | none => none

/-- Everything of the regex after the mandatory 5-character prefix:
`\d+` (greedy, then the literal `_`), the lazy middle and the suffix.
`pfx` carries the original prefix characters for the returned group 1
(regex groups keep the original text). -/
def matchCore (pfx rest : FName) : Option (FName × FName × FName) :=
  match rest.dropWhile Char.isDigit with
  | [] => none
  | c :: mid =>
      if c = '_' ∧ ¬(rest.takeWhile Char.isDigit).isEmpty then
        match scanMid mid with
        | some (m, d, e) => some (pfx ++ rest.takeWhile Char.isDigit ++ c :: m, d, e)
        | none => none
      else none

/-- The full filename test `/^(page_\d+_.*?)-(\d+)(\.[^.]+)$/i` of
`renameSuffixedFiles`.  On success returns the three capture groups
(`page_N_basename`, suffix digits, extension). -/
def matchPattern : FName → Option (FName × FName × FName)
  | c1 :: c2 :: c3 :: c4 :: c5 :: rest =>
      if asciiLower c1 = 'p' ∧ asciiLower c2 = 'a' ∧ asciiLower c3 = 'g' ∧
          asciiLower c4 = 'e' ∧ c5 = '_' then
        matchCore [c1, c2, c3, c4, c5] rest
      else none
  | _ => none

theorem suffixMatch_eq_some {l ds ext : FName}
    (h : suffixMatch l = some (ds, ext)) :
    l = ds ++ ext ∧ ds ≠ [] ∧ ds.all Char.isDigit = true ∧ ext ≠ [] := by
  unfold suffixMatch at h
  split at h
  next => exact absurd h (by simp)
  next c tail hrest =>
    split at h
    next hc =>
      simp only [Option.some.injEq, Prod.mk.injEq] at h
      obtain ⟨h1, h2⟩ := h
      refine ⟨?_, ?_, ?_, ?_⟩
      · rw [← h1, ← h2, ← hrest, List.takeWhile_append_dropWhile]
      · rw [← h1]
        intro hnil
        exact hc.2.1 (by simp [hnil])
      · rw [← h1]
        exact List.all_eq_true.2 fun x hx => List.mem_takeWhile_imp hx
      · rw [← h2]; simp
    next hc => exact absurd h (by simp)

theorem scanMid_eq_some {l m d e : FName}
    (h : scanMid l = some (m, d, e)) :
    l = m ++ '-' :: (d ++ e) ∧ d ≠ [] ∧ d.all Char.isDigit = true ∧ e ≠ [] := by
  induction l generalizing m d e with
  | nil => exact absurd h (by simp [scanMid])
  | cons c rest ih =>
      unfold scanMid at h
      by_cases hc : c = '-'
      · rw [if_pos hc] at h
        split at h
        next ds ext hsm =>
          simp only [Option.some.injEq, Prod.mk.injEq] at h
          obtain ⟨hm, hd, he⟩ := h
          obtain ⟨hrest2, hne, hdig, hext⟩ := suffixMatch_eq_some hsm
          subst hm hd he hc
          exact ⟨by rw [hrest2]; rfl, hne, hdig, hext⟩
        next hsm =>
          split at h
          next m' d' e' hsc =>
            simp only [Option.some.injEq, Prod.mk.injEq] at h
            obtain ⟨hm, hd, he⟩ := h
            obtain ⟨hrest, hne, hdig, hext⟩ := ih hsc
            subst hd he
            rw [← hm, hrest]
            exact ⟨by simp, hne, hdig, hext⟩
          next => exact absurd h (by simp)
      · rw [if_neg hc] at h
        by_cases hlt : isLineTerm c = true
        · rw [if_pos hlt] at h
          exact absurd h (by simp)
        · rw [if_neg hlt] at h
          split at h
          next m' d' e' hsc =>
            simp only [Option.some.injEq, Prod.mk.injEq] at h
            obtain ⟨hm, hd, he⟩ := h
            obtain ⟨hrest, hne, hdig, hext⟩ := ih hsc
            subst hd he
            rw [← hm, hrest]
            exact ⟨by simp, hne, hdig, hext⟩
          next => exact absurd h (by simp)

theorem matchCore_eq_some {pfx rest g1 g2 g3 : FName}
    (h : matchCore pfx rest = some (g1, g2, g3)) :
    pfx ++ rest = g1 ++ '-' :: (g2 ++ g3) ∧ g2 ≠ [] ∧
      g2.all Char.isDigit = true ∧ g3 ≠ [] := by
  unfold matchCore at h
  split at h
  next => exact absurd h (by simp)
  next c mid hrest =>
    split at h
    next hc =>
      split at h
      next m d e hsc =>
        simp only [Option.some.injEq, Prod.mk.injEq] at h
        obtain ⟨hg1, hg2, hg3⟩ := h
        obtain ⟨hmid, hne, hdig, hext⟩ := scanMid_eq_some hsc
        subst hg2 hg3
        refine ⟨?_, hne, hdig, hext⟩
        rw [← hg1]
        conv_lhs => rw [← List.takeWhile_append_dropWhile (p := Char.isDigit) (l := rest)]
        rw [hrest, hmid]
        simp
      next => exact absurd h (by simp)
    next hc => exact absurd h (by simp)

/-- Structural content of a successful match: the filename decomposes as
group 1, a hyphen, the nonempty digit group 2, and the extension
group 3. -/
theorem matchPattern_eq_some {s g1 g2 g3 : FName}
    (h : matchPattern s = some (g1, g2, g3)) :
    s = g1 ++ '-' :: (g2 ++ g3) ∧ g2 ≠ [] ∧
      g2.all Char.isDigit = true ∧ g3 ≠ [] := by
  match s with
  | [] => exact absurd h (by simp [matchPattern])
  | [c1] => exact absurd h (by simp [matchPattern])
  | [c1, c2] => exact absurd h (by simp [matchPattern])
  | [c1, c2, c3] => exact absurd h (by simp [matchPattern])
  | [c1, c2, c3, c4] => exact absurd h (by simp [matchPattern])
  | c1 :: c2 :: c3 :: c4 :: c5 :: rest =>
      have h' : (if asciiLower c1 = 'p' ∧ asciiLower c2 = 'a' ∧ asciiLower c3 = 'g' ∧
          asciiLower c4 = 'e' ∧ c5 = '_' then
            matchCore [c1, c2, c3, c4, c5] rest else none) = some (g1, g2, g3) := h
      split at h'
      next hc => exact matchCore_eq_some h'
      next hc => exact absurd h' (by simp)

/-- Whether `matchCore` succeeds does not depend on the prefix characters
passed through for group 1. -/
theorem matchCore_isSome (pfx pfx' rest : FName) :
    (matchCore pfx rest).isSome = (matchCore pfx' rest).isSome := by
  unfold matchCore
  split
  next => rfl
  next c mid hrest =>
    split
    next hc =>
      split
      next m d e hsc => rfl
      next => rfl
    next hc => rfl

/-! ## Filesystem model

The output directory is a list of entries; `dirent.isFile` distinguishes
regular files from other entries (the reconciler filters on it, line 30).
File contents distinguish the single-page PDFs written by the splitter
from everything else. -/

/-- Content of a file.  `pdfOnePage d` is the serialized single-page
document containing exactly the copy of a source page with data `d`;
`raw k` is arbitrary other content (thumbnails, pre-existing files). -/
inductive FileData where
  | pdfOnePage (pageData : Nat)
  | raw (k : Nat)
deriving DecidableEq, Repr

/-- A directory entry as returned by `fs.readdir(withFileTypes)`. -/
structure Entry where
  name : FName
  isFile : Bool
  data : FileData
deriving DecidableEq, Repr

/-- The output directory: a list of entries. -/
abbrev Fs := List Entry

/-- First entry with the given name, if any. -/
def fsLookup : Fs → FName → Option FileData
  | [], _ => none
  | e :: rest, n => if e.name = n then some e.data else fsLookup rest n

/-- Whether a file with the given name exists (what a successful
`fs.access` probe observes). -/
def fsHasName (fs : Fs) (n : FName) : Bool := (fsLookup fs n).isSome

/-- `fs.writeFile`: overwrite the entry of that name, or create it. -/
def fsWrite : Fs → FName → FileData → Fs
  | [], n, d => [⟨n, true, d⟩]
  | e :: rest, n, d =>
      if e.name = n then ⟨n, true, d⟩ :: rest else e :: fsWrite rest n d

/-- `fs.rename`: the entry called `old` is now called `new`. -/
def fsRename (fs : Fs) (old new : FName) : Fs :=
  fs.map fun e => if e.name = old then ⟨new, e.isFile, e.data⟩ else e

/-- `path.join(directory, name)` for the slash-free names produced by
`fs.readdir`: directory, separator, name. -/
def joinPath (dir n : FName) : FName := dir ++ '/' :: n

/-! ## The Filename Reconciler (`renameSuffixedFiles`, lines 14-89)

The fallible filesystem calls inside the per-file loop are modelled by
an environment: the outcome of the `fs.access(new_path)` probe (which the
code distinguishes into success, `ENOENT`, and any other error) and
whether `fs.rename` succeeds.  `idealEnv` is the error-free filesystem,
where a probe succeeds exactly when the target exists. -/

/-- Outcome of the `fs.access` probe on the rename target. -/
inductive AccessOut where
  | okExists
  | enoent
  | err
deriving DecidableEq, Repr

/-- Error-injection environment for the reconciler's filesystem calls.
`access` receives the probed name and whether it currently exists. -/
structure RenEnv where
  access : FName → Bool → AccessOut
  renameOk : FName → FName → Bool

/-- The error-free filesystem: probes report exactly the truth and
renames succeed. -/
def idealEnv : RenEnv :=
  ⟨fun _ ex => if ex then .okExists else .enoent, fun _ _ => true⟩

/-- The three counters reported by the reconciler. -/
structure Counts where
  renamed : Nat
  skipped : Nat
  errors : Nat
deriving DecidableEq, Repr

/-- Console lines of the reconciler that the claims talk about. -/
inductive RenLog where
  | skipLog (old new : FName)
  | renameLog (old new : FName)
  | errLog (name : FName)
  | readdirError
  | summary (renamed skipped errors : Nat)
deriving DecidableEq, Repr

/-- One iteration of the reconciler's `for` loop (lines 33-77): test the
name against the regex, compute the target, skip when the joined paths
coincide, probe the target, then skip / rename / record an error. -/
def processFile (env : RenEnv) (dir : FName) (st : Fs × Counts × List RenLog)
    (filename : FName) : Fs × Counts × List RenLog :=
  match matchPattern filename with
  | none => st
  | some (g1, _, g3) =>
      if joinPath dir filename = joinPath dir (g1 ++ g3) then st
      else
        match env.access (g1 ++ g3) (fsHasName st.1 (g1 ++ g3)) with
        | .okExists =>
            (st.1, ⟨st.2.1.renamed, st.2.1.skipped + 1, st.2.1.errors⟩,
              st.2.2 ++ [.skipLog filename (g1 ++ g3)])
        | .err =>
            (st.1, ⟨st.2.1.renamed, st.2.1.skipped, st.2.1.errors + 1⟩,
              st.2.2 ++ [.errLog filename])
        | .enoent =>
            if env.renameOk filename (g1 ++ g3) then
              (fsRename st.1 filename (g1 ++ g3),
                ⟨st.2.1.renamed + 1, st.2.1.skipped, st.2.1.errors⟩,
                st.2.2 ++ [.renameLog filename (g1 ++ g3)])
            else
              (st.1, ⟨st.2.1.renamed, st.2.1.skipped, st.2.1.errors + 1⟩,
                st.2.2 ++ [.errLog filename])

/-- The regular-file names the reconciler enumerates (line 30). -/
def dirFiles (fs : Fs) : List FName :=
  (fs.filter fun e => e.isFile).map fun e => e.name

/-- The final report (lines 83-88): the skipped count is recomputed as
`files.length - renamed - errored` (line 86) before the summary is
printed. -/
def renFinish (total : Nat) (r : Fs × Counts × List RenLog) :
    Fs × Counts × List RenLog :=
  (r.1, ⟨r.2.1.renamed, total - r.2.1.renamed - r.2.1.errors, r.2.1.errors⟩,
    r.2.2 ++
      [.summary r.2.1.renamed (total - r.2.1.renamed - r.2.1.errors) r.2.1.errors])

/-- `renameSuffixedFiles(directory)`.  `readdirOk` is whether the
initial `fs.readdir` succeeds; on failure the catch block logs the error
and the counters keep their initial values, so the recomputed skipped
count is `0 - 0 - 0`. -/
def renameSuffixedFiles (env : RenEnv) (dir : FName) (readdirOk : Bool)
    (fs0 : Fs) : Fs × Counts × List RenLog :=
  if readdirOk then
    renFinish (dirFiles fs0).length
      ((dirFiles fs0).foldl (processFile env dir) (fs0, ⟨0, 0, 0⟩, []))
  else
    (fs0, ⟨0, 0, 0⟩, [.readdirError, .summary 0 0 0])

/-! ## The Page Splitter (lines 111-120)

The pdf-lib primitives (`PDFDocument.create`, `copyPages`, `addPage`,
`save`) are the external document library: copying page `i` of the
source into a fresh document and serializing it is modelled by the
content `FileData.pdfOnePage (doc.pageData i)`. -/

/-- The loaded source document: page count and per-page content,
0-based. -/
structure Doc where
  pageCount : Nat
  pageData : Nat → Nat

/-- The output name `page_${pageNum}_${baseName}.pdf` (line 113). -/
def pdfName (n : Nat) (base : FName) : FName :=
  "page_".toList ++ natChars n ++ '_' :: (base ++ ".pdf".toList)

/-- The splitting loop for the first `m` pages, fold of
`fs.writeFile(page_{i+1}_{baseName}.pdf, single page i)`. -/
def splitPagesAux (pd : Nat → Nat) (base : FName) (m : Nat) (fs0 : Fs) : Fs :=
  (List.range m).foldl
    (fun fs i => fsWrite fs (pdfName (i + 1) base) (.pdfOnePage (pd i))) fs0

/-- The full splitting loop (lines 111-120). -/
def splitPages (doc : Doc) (base : FName) (fs0 : Fs) : Fs :=
  splitPagesAux doc.pageData base doc.pageCount fs0

/-- The names the splitter writes, in order: `page_1_… page_N_…`. -/
def splitNames (doc : Doc) (base : FName) : List FName :=
  (List.range' 1 doc.pageCount).map fun n => pdfName n base

/-! ## The Thumbnail Generator (lines 125-141)

`pdftocairo` is an external process: per page it either succeeds,
writing one image file whose name it chooses itself, or fails with an
exit code and diagnostic output.  The loop body is a `try`/`catch`: on
failure the page number, exit code and stderr are logged and the loop
continues with the next page. -/

/-- Outcome of one `pdftocairo` invocation. -/
inductive RastResult where
  | ok (written : Entry) (stderrTxt : FName)
  | fail (code : Int) (stderrTxt : FName)

/-- Observable events of the thumbnail loop. -/
inductive ThumbEvent where
  | invoked (page : Nat)
  | okDone (page : Nat)
  | errorLogged (page : Nat) (code : Int) (stderrTxt : FName)
deriving DecidableEq

/-- The events of one loop iteration. -/
def stepEvents (rast : Nat → RastResult) (page : Nat) : List ThumbEvent :=
  match rast page with
  | .ok _ _ => [.invoked page, .okDone page]
  | .fail c st => [.invoked page, .errorLogged page c st]

/-- One iteration of the thumbnail loop: invoke the rasterizer; on
success its output file appears, on failure the error is logged; either
way the loop moves on. -/
def thumbStep (rast : Nat → RastResult) (st : Fs × List ThumbEvent)
    (page : Nat) : Fs × List ThumbEvent :=
  match rast page with
  | .ok w _ => (fsWrite st.1 w.name w.data, st.2 ++ stepEvents rast page)
  | .fail _ _ => (st.1, st.2 ++ stepEvents rast page)

/-- The thumbnail loop over pages `1 … n` (lines 125-141). -/
def thumbRun (rast : Nat → RastResult) (n : Nat) (fs : Fs) :
    Fs × List ThumbEvent :=
  (List.range' 1 n).foldl (thumbStep rast) (fs, [])

/-- The pages for which the rasterizer was invoked, in order. -/
def invokedPages : List ThumbEvent → List Nat
  | [] => []
  | .invoked p :: rest => p :: invokedPages rest
  | _ :: rest => invokedPages rest

/-! ## Script-level model (lines 94-169)

`path.extname`, the argument checks, and the sequencing of the three
phases inside `splitPdfAndCreateThumbnails`, with the up-front existence
checks and the load outcome supplied by an environment.  The exit code
is 0 unless one of the fatal paths calls `process.exit(1)`. -/

/-- The part of a POSIX path after the last separator. -/
def basenamePart (p : FName) : FName :=
  (p.reverse.takeWhile fun c => c != '/').reverse

/-- `path.extname`: from the last dot of the basename to the end, empty
when there is no dot or the dot is the leading character. -/
def extname (p : FName) : FName :=
  let b := basenamePart p
  let afterDot := b.reverse.takeWhile fun c => c != '.'
  if afterDot.length = b.length then []
  else if afterDot.length + 1 = b.length then []
  else '.' :: afterDot.reverse

/-- `path.basename(pdfPath, path.extname(pdfPath))`: the basename with
its extension removed (line 103). -/
def basenameNoExt (p : FName) : FName :=
  (basenamePart p).take ((basenamePart p).length - (extname p).length)

/-- Environment of one whole run: the outcomes of the up-front checks,
of the document load, of each rasterizer invocation, of the reconciler's
directory read, of its per-file filesystem calls, and the output
directory (`process.cwd()`). -/
structure ScriptEnv where
  inputExists : Bool
  cairoExists : Bool
  load : Option Doc
  rast : Nat → RastResult
  readdirOk : Bool
  renEnv : RenEnv
  outDir : FName

/-- Observable result of a run: the process exit code, the final state
of the output directory, whether the source document was successfully
opened, and the reports of the later phases. -/
structure RunOutcome where
  exitCode : Nat
  fs : Fs
  docOpened : Bool
  renCounts : Option Counts
  renLogs : List RenLog
  thumbEvents : List ThumbEvent
deriving DecidableEq

/-- `splitPdfAndCreateThumbnails(pdfPath)` (lines 94-155): existence
checks for the input and for `pdftocairo` (each `process.exit(1)` on
failure), document load (failure reaches the catch block, which calls
`process.exit(1)`), then splitting, thumbnail generation and
reconciliation in sequence. -/
def splitPdfAndCreateThumbnails (env : ScriptEnv) (pdfPath : FName)
    (fs0 : Fs) : RunOutcome :=
  if env.inputExists then
    if env.cairoExists then
      match env.load with
      | none => ⟨1, fs0, false, none, [], []⟩
      | some doc =>
          let fs1 := splitPages doc (basenameNoExt pdfPath) fs0
          let tr := thumbRun env.rast doc.pageCount fs1
          let rr := renameSuffixedFiles env.renEnv env.outDir env.readdirOk tr.1
          ⟨0, rr.1, true, some rr.2.1, rr.2.2, tr.2⟩
    else ⟨1, fs0, false, none, [], []⟩
  else ⟨1, fs0, false, none, [], []⟩

/-- Script entry (lines 160-169): exactly one positional argument whose
`path.extname(...).toLowerCase()` must be `.pdf`, otherwise
`process.exit(1)` before `splitPdfAndCreateThumbnails` is called. -/
def scriptMain (env : ScriptEnv) (args : List FName) (fs0 : Fs) : RunOutcome :=
  match args with
  | [f] =>
      if lowerStr (extname f) = ".pdf".toList then
        splitPdfAndCreateThumbnails env f fs0
      else ⟨1, fs0, false, none, [], []⟩
  | _ => ⟨1, fs0, false, none, [], []⟩

/-! ## Supporting lemmas -/

theorem fsLookup_fsWrite_same (fs : Fs) (n : FName) (d : FileData) :
    fsLookup (fsWrite fs n d) n = some d := by
  induction fs with
  | nil => simp [fsWrite, fsLookup]
  | cons e rest ih =>
      by_cases he : e.name = n
      · simp [fsWrite, he, fsLookup]
      · simp [fsWrite, he, fsLookup, ih]

theorem fsLookup_fsWrite_ne (fs : Fs) (n m : FName) (d : FileData)
    (hne : m ≠ n) : fsLookup (fsWrite fs n d) m = fsLookup fs m := by
  induction fs with
  | nil => simp [fsWrite, fsLookup, Ne.symm hne]
  | cons e rest ih =>
      by_cases he : e.name = n
      · have : ¬n = m := fun h => hne h.symm
        simp [fsWrite, he, fsLookup, this]
      · simp only [fsWrite, if_neg he, fsLookup]
        by_cases hm : e.name = m
        · simp [hm]
        · simp [hm, ih]

theorem pdfName_inj {a b : Nat} {base : FName}
    (h : pdfName a base = pdfName b base) : a = b := by
  unfold pdfName at h
  rw [List.append_assoc, List.append_assoc] at h
  have h2 := List.append_cancel_left h
  have hlen : (natChars a).length = (natChars b).length := by
    have := congrArg List.length h2
    simp only [List.length_append, List.length_cons] at this
    omega
  exact natChars_injective (List.append_inj h2 hlen).1

theorem splitPagesAux_succ (pd : Nat → Nat) (base : FName) (m : Nat) (fs0 : Fs) :
    splitPagesAux pd base (m + 1) fs0 =
      fsWrite (splitPagesAux pd base m fs0) (pdfName (m + 1) base)
        (.pdfOnePage (pd m)) := by
  simp [splitPagesAux, List.range_succ, List.foldl_append]

theorem fsLookup_splitPagesAux (pd : Nat → Nat) (base : FName) :
    ∀ (m : Nat) (fs0 : Fs) (n : Nat), 1 ≤ n → n ≤ m →
      fsLookup (splitPagesAux pd base m fs0) (pdfName n base) =
        some (.pdfOnePage (pd (n - 1))) := by
  intro m
  induction m with
  | zero => intro fs0 n h1 h2; omega
  | succ m ih =>
      intro fs0 n h1 h2
      rw [splitPagesAux_succ]
      by_cases hn : n = m + 1
      · subst hn
        rw [fsLookup_fsWrite_same]
        simp
      · have hle : n ≤ m := by omega
        rw [fsLookup_fsWrite_ne _ _ _ _ fun hEq => hn (pdfName_inj hEq)]
        exact ih fs0 n h1 hle

theorem fsLookup_splitPagesAux_other (pd : Nat → Nat) (base : FName) :
    ∀ (m : Nat) (fs0 : Fs) (other : FName),
      (∀ k, 1 ≤ k → k ≤ m → other ≠ pdfName k base) →
      fsLookup (splitPagesAux pd base m fs0) other = fsLookup fs0 other := by
  intro m
  induction m with
  | zero => intro fs0 other _; rfl
  | succ m ih =>
      intro fs0 other hother
      rw [splitPagesAux_succ,
        fsLookup_fsWrite_ne _ _ _ _ (hother (m + 1) (by omega) (by omega))]
      exact ih fs0 other fun k hk1 hk2 => hother k hk1 (by omega)

theorem mem_splitNames {doc : Doc} {base : FName} {x : FName} :
    x ∈ splitNames doc base ↔
      ∃ k, 1 ≤ k ∧ k ≤ doc.pageCount ∧ x = pdfName k base := by
  unfold splitNames
  rw [List.mem_map]
  constructor
  · rintro ⟨k, hk, rfl⟩
    rw [List.mem_range'] at hk
    obtain ⟨i, hi, rfl⟩ := hk
    exact ⟨1 + 1 * i, by omega, by omega, rfl⟩
  · rintro ⟨k, hk1, hk2, rfl⟩
    refine ⟨k, ?_, rfl⟩
    rw [List.mem_range']
    exact ⟨k - 1, by omega, by omega⟩

theorem splitNames_nodup (doc : Doc) (base : FName) :
    (splitNames doc base).Nodup := by
  unfold splitNames
  exact (List.nodup_range' 1 doc.pageCount).map fun a b h => pdfName_inj h

theorem processFile_counts (env : RenEnv) (dir : FName)
    (st : Fs × Counts × List RenLog) (fn : FName) :
    (processFile env dir st fn).2.1.renamed + (processFile env dir st fn).2.1.errors ≤
      st.2.1.renamed + st.2.1.errors + 1 := by
  unfold processFile
  split
  · omega
  · split
    · omega
    · split
      · simp only [Prod.fst, Prod.snd]
        omega
      · simp only [Prod.fst, Prod.snd]
        omega
      · split
        · simp only [Prod.fst, Prod.snd]
          omega
        · simp only [Prod.fst, Prod.snd]
          omega

theorem foldl_processFile_counts (env : RenEnv) (dir : FName) :
    ∀ (files : List FName) (st : Fs × Counts × List RenLog),
      (files.foldl (processFile env dir) st).2.1.renamed +
          (files.foldl (processFile env dir) st).2.1.errors ≤
        st.2.1.renamed + st.2.1.errors + files.length := by
  intro files
  induction files with
  | nil => intro st; simp
  | cons fn rest ih =>
      intro st
      have h1 := processFile_counts env dir st fn
      have h2 := ih (processFile env dir st fn)
      simp only [List.foldl_cons, List.length_cons]
      omega

/-- The events of the thumbnail loop over a list of pages. -/
def pageEvents (rast : Nat → RastResult) : List Nat → List ThumbEvent
  | [] => []
  | p :: rest => stepEvents rast p ++ pageEvents rast rest

theorem thumbFold_events (rast : Nat → RastResult) :
    ∀ (l : List Nat) (fs : Fs) (evs : List ThumbEvent),
      (l.foldl (thumbStep rast) (fs, evs)).2 = evs ++ pageEvents rast l := by
  intro l
  induction l with
  | nil => intro fs evs; simp [pageEvents]
  | cons p rest ih =>
      intro fs evs
      simp only [List.foldl_cons, pageEvents]
      have hstep : thumbStep rast (fs, evs) p =
          ((thumbStep rast (fs, evs) p).1, evs ++ stepEvents rast p) := by
        unfold thumbStep
        cases rast p <;> rfl
      rw [hstep, ih, List.append_assoc]

theorem thumbRun_events (rast : Nat → RastResult) (n : Nat) (fs : Fs) :
    (thumbRun rast n fs).2 = pageEvents rast (List.range' 1 n) := by
  unfold thumbRun
  rw [thumbFold_events]
  rfl

theorem invokedPages_append (l1 l2 : List ThumbEvent) :
    invokedPages (l1 ++ l2) = invokedPages l1 ++ invokedPages l2 := by
  induction l1 with
  | nil => rfl
  | cons e rest ih => cases e <;> simp [invokedPages, ih]

theorem invokedPages_stepEvents (rast : Nat → RastResult) (p : Nat) :
    invokedPages (stepEvents rast p) = [p] := by
  unfold stepEvents
  cases rast p <;> rfl

theorem invokedPages_pageEvents (rast : Nat → RastResult) :
    ∀ l : List Nat, invokedPages (pageEvents rast l) = l := by
  intro l
  induction l with
  | nil => rfl
  | cons p rest ih =>
      rw [pageEvents, invokedPages_append, invokedPages_stepEvents, ih]
      rfl

theorem errorLogged_mem_pageEvents (rast : Nat → RastResult) {p : Nat}
    {c : Int} {st : FName} (hr : rast p = .fail c st) :
    ∀ l : List Nat, p ∈ l → ThumbEvent.errorLogged p c st ∈ pageEvents rast l := by
  intro l
  induction l with
  | nil => intro h; exact absurd h (by simp)
  | cons q rest ih =>
      intro hmem
      rw [pageEvents, List.mem_append]
      rcases List.mem_cons.1 hmem with hq | hq
      · subst hq
        left
        unfold stepEvents
        rw [hr]
        simp
      · exact Or.inr (ih hq)

/-! ## Concrete inputs used by counterexamples and witnesses -/

/-- The conflict scenario: the target of the suffixed thumbnail already
exists. -/
def fsConflict : Fs :=
  [⟨"page_3_report.jpeg".toList, true, .raw 0⟩,
   ⟨"page_3_report-1.jpeg".toList, true, .raw 1⟩]

/-- A sample script environment: input and rasterizer present, a 2-page
document, a rasterizer that always fails, an error-free directory. -/
def sampleEnv : ScriptEnv :=
  ⟨true, true, some ⟨2, fun i => i⟩, fun _ => .fail 1 "err".toList, true,
    idealEnv, "/out".toList⟩

/-! ## Claims -/

/-- C1 counterexample: over a directory holding exactly
`page_3_report.jpeg` and `page_3_report-1.jpeg`, the final reported
counts are not 1 skipped, 0 renamed, 0 errored: line 86 recomputes the
skipped count as `totalFiles - renamed - errored = 2 - 0 - 0 = 2`,
counting the non-matching file as skipped as well. -/
theorem conflict_run_skipped_count_ne_one :
    (renameSuffixedFiles idealEnv "/out".toList true fsConflict).2.1 ≠
      ⟨0, 1, 0⟩ := by decide

/-- C1 amended: in the conflict scenario both files still exist
unchanged, the per-file log records the one skip for an existing target,
and the final reported counts are 0 renamed, 2 skipped, 0 errored. -/
theorem conflict_run_reports_two_skipped :
    renameSuffixedFiles idealEnv "/out".toList true fsConflict =
      (fsConflict, ⟨0, 2, 0⟩,
        [.skipLog "page_3_report-1.jpeg".toList "page_3_report.jpeg".toList,
         .summary 0 2 0]) := by decide

/-- C2 counterexample: `PAGE_3_report-1.jpeg` does match the pattern
(the `i` flag covers the whole regex, not only the extension), and a
reconciler run does not leave it untouched: afterwards no file of that
name exists any more. -/
theorem uppercase_prefix_matches :
    (matchPattern "PAGE_3_report-1.jpeg".toList).isSome = true ∧
      fsLookup (renameSuffixedFiles idealEnv "/out".toList true
          [⟨"PAGE_3_report-1.jpeg".toList, true, .raw 3⟩]).1
        "PAGE_3_report-1.jpeg".toList = none := by decide

/-- C2 amended: matching is case-insensitive over the whole pattern,
including the literal `page_` prefix: a successful match never depends
on the case of the five prefix characters, and `PAGE_3_report-1.jpeg` is
renamed to `PAGE_3_report.jpeg` with counts 1 renamed, 0 skipped,
0 errored. -/
theorem match_case_insensitive_prefix :
    (∀ t : FName,
        (matchPattern ('P' :: 'A' :: 'G' :: 'E' :: '_' :: t)).isSome =
          (matchPattern ('p' :: 'a' :: 'g' :: 'e' :: '_' :: t)).isSome)
    ∧ renameSuffixedFiles idealEnv "/out".toList true
          [⟨"PAGE_3_report-1.jpeg".toList, true, .raw 3⟩] =
        ([⟨"PAGE_3_report.jpeg".toList, true, .raw 3⟩], ⟨1, 0, 0⟩,
          [.renameLog "PAGE_3_report-1.jpeg".toList "PAGE_3_report.jpeg".toList,
           .summary 1 0 0]) := by
  constructor
  · intro t
    have h1 : matchPattern ('P' :: 'A' :: 'G' :: 'E' :: '_' :: t) =
        (if asciiLower 'P' = 'p' ∧ asciiLower 'A' = 'a' ∧ asciiLower 'G' = 'g' ∧
            asciiLower 'E' = 'e' ∧ '_' = '_' then
          matchCore ['P', 'A', 'G', 'E', '_'] t else none) := rfl
    have h2 : matchPattern ('p' :: 'a' :: 'g' :: 'e' :: '_' :: t) =
        (if asciiLower 'p' = 'p' ∧ asciiLower 'a' = 'a' ∧ asciiLower 'g' = 'g' ∧
            asciiLower 'e' = 'e' ∧ '_' = '_' then
          matchCore ['p', 'a', 'g', 'e', '_'] t else none) := rfl
    rw [h1, h2, if_pos (by decide), if_pos (by decide)]
    exact matchCore_isSome _ _ t
  · decide

/-- C3: for a loaded document with `N` pages, the splitter writes
exactly the `N` pairwise distinct names `page_1_{base}.pdf` …
`page_N_{base}.pdf`; under each of them lies the serialized single-page
copy of the corresponding source page (any previous file of that name is
overwritten), and every other name is untouched, so nothing is
deleted. -/
theorem splitter_writes_each_page (doc : Doc) (base : FName) (fs0 : Fs)
    (n : Nat) (other : FName) (h1 : 1 ≤ n) (h2 : n ≤ doc.pageCount)
    (hother : other ∉ splitNames doc base) :
    fsLookup (splitPages doc base fs0) (pdfName n base) =
        some (.pdfOnePage (doc.pageData (n - 1)))
    ∧ fsLookup (splitPages doc base fs0) other = fsLookup fs0 other
    ∧ (splitNames doc base).length = doc.pageCount
    ∧ (splitNames doc base).Nodup := by
  refine ⟨fsLookup_splitPagesAux _ _ _ _ _ h1 h2, ?_, ?_,
    splitNames_nodup doc base⟩
  · apply fsLookup_splitPagesAux_other
    intro k hk1 hk2 hEq
    exact hother (mem_splitNames.2 ⟨k, hk1, hk2, hEq⟩)
  · simp [splitNames]

/-- Witness for C3 at a concrete 2-page document over a directory
already holding an unrelated file `x`. -/
theorem splitter_writes_each_page_witness :
    fsLookup (splitPages ⟨2, fun i => i⟩ "doc".toList
        [⟨"x".toList, true, .raw 5⟩]) (pdfName 2 "doc".toList) =
      some (.pdfOnePage 1)
    ∧ fsLookup (splitPages ⟨2, fun i => i⟩ "doc".toList
        [⟨"x".toList, true, .raw 5⟩]) "x".toList =
      fsLookup [⟨"x".toList, true, .raw 5⟩] "x".toList
    ∧ (splitNames ⟨2, fun i => i⟩ "doc".toList).length = 2
    ∧ (splitNames ⟨2, fun i => i⟩ "doc".toList).Nodup :=
  splitter_writes_each_page ⟨2, fun i => i⟩ "doc".toList
    [⟨"x".toList, true, .raw 5⟩] 2 "x".toList (by decide) (by decide)
    (by decide)

/-- C4: when the rasterizer invocation for a page fails, the loop logs
that page's number, exit code and captured stderr; the rasterizer is
still invoked for every page from 1 to N in order, exactly once per page
(no retry), so no failure aborts the batch. -/
theorem thumbnail_failure_isolated (rast : Nat → RastResult) (n : Nat)
    (fs : Fs) (page : Nat) (code : Int) (stderrTxt : FName)
    (h1 : 1 ≤ page) (h2 : page ≤ n) (hr : rast page = .fail code stderrTxt) :
    ThumbEvent.errorLogged page code stderrTxt ∈ (thumbRun rast n fs).2
    ∧ invokedPages (thumbRun rast n fs).2 = List.range' 1 n
    ∧ (invokedPages (thumbRun rast n fs).2).count page = 1 := by
  have hmem : page ∈ List.range' 1 n := by
    rw [List.mem_range']
    exact ⟨page - 1, by omega, by omega⟩
  have hev := thumbRun_events rast n fs
  refine ⟨?_, ?_, ?_⟩
  · rw [hev]
    exact errorLogged_mem_pageEvents rast hr _ hmem
  · rw [hev, invokedPages_pageEvents]
  · rw [hev, invokedPages_pageEvents]
    exact List.count_eq_one_of_mem (List.nodup_range' 1 n) hmem

/-- Witness for C4: an always-failing rasterizer over a 2-page run. -/
theorem thumbnail_failure_isolated_witness :
    ThumbEvent.errorLogged 1 1 "err".toList ∈
      (thumbRun (fun _ => .fail 1 "err".toList) 2 []).2
    ∧ invokedPages (thumbRun (fun _ => .fail 1 "err".toList) 2 []).2 =
      List.range' 1 2
    ∧ (invokedPages (thumbRun (fun _ => .fail 1 "err".toList) 2 []).2).count 1
      = 1 :=
  thumbnail_failure_isolated (fun _ => .fail 1 "err".toList) 2 [] 1 1
    "err".toList (by decide) (by decide) rfl

/-- C5: whenever the directory enumeration succeeds, the final reported
skipped count is exactly the number of enumerated regular files minus
the renamed count minus the errored count, whatever the per-file
filesystem outcomes were; equivalently the three final counters sum to
the file total (renamed + errored never exceeds it). -/
theorem rename_final_count_reconciliation (env : RenEnv) (dir : FName)
    (fs0 : Fs) :
    (renameSuffixedFiles env dir true fs0).2.1.skipped =
        (dirFiles fs0).length -
          (renameSuffixedFiles env dir true fs0).2.1.renamed -
          (renameSuffixedFiles env dir true fs0).2.1.errors
    ∧ (renameSuffixedFiles env dir true fs0).2.1.skipped +
          (renameSuffixedFiles env dir true fs0).2.1.renamed +
          (renameSuffixedFiles env dir true fs0).2.1.errors =
        (dirFiles fs0).length := by
  have hinv := foldl_processFile_counts env dir (dirFiles fs0)
    (fs0, ⟨0, 0, 0⟩, [])
  have hbc : ((dirFiles fs0).foldl (processFile env dir)
          (fs0, ⟨0, 0, 0⟩, [])).2.1.renamed +
        ((dirFiles fs0).foldl (processFile env dir)
          (fs0, ⟨0, 0, 0⟩, [])).2.1.errors ≤ (dirFiles fs0).length := by
    calc ((dirFiles fs0).foldl (processFile env dir)
            (fs0, ⟨0, 0, 0⟩, [])).2.1.renamed +
          ((dirFiles fs0).foldl (processFile env dir)
            (fs0, ⟨0, 0, 0⟩, [])).2.1.errors
        ≤ 0 + 0 + (dirFiles fs0).length := hinv
      _ = (dirFiles fs0).length := by omega
  unfold renameSuffixedFiles renFinish
  rw [if_pos rfl]
  refine ⟨rfl, ?_⟩
  simp only [Prod.fst, Prod.snd]
  omega

/-- C6: over a directory whose only regular file is
`page_3_report-1.jpeg`, the reconciler renames it to
`page_3_report.jpeg` and reports 1 renamed, 0 skipped, 0 errored. -/
theorem rename_round_trip :
    renameSuffixedFiles idealEnv "/out".toList true
        [⟨"page_3_report-1.jpeg".toList, true, .raw 7⟩] =
      ([⟨"page_3_report.jpeg".toList, true, .raw 7⟩], ⟨1, 0, 0⟩,
        [.renameLog "page_3_report-1.jpeg".toList "page_3_report.jpeg".toList,
         .summary 1 0 0]) := by decide

/-- C7: a single positional argument whose lowercased `path.extname` is
not `.pdf` makes the script exit with code 1 at the argument check:

the document is never opened and the directory is untouched. -/
theorem nonPdf_extension_exits_early (env : ScriptEnv) (f : FName) (fs0 : Fs)
    (h : lowerStr (extname f) ≠ ".pdf".toList) :
    scriptMain env [f] fs0 = ⟨1, fs0, false, none, [], []⟩ := by
  have hmain : scriptMain env [f] fs0 =
      (if lowerStr (extname f) = ".pdf".toList then
        splitPdfAndCreateThumbnails env f fs0
      else ⟨1, fs0, false, none, [], []⟩) := rfl
  rw [hmain, if_neg h]

/-- Witness for C7 at a `.docx` argument. -/
theorem nonPdf_extension_exits_early_witness :
    scriptMain sampleEnv ["report.docx".toList] [] =
      ⟨1, [], false, none, [], []⟩ :=
  nonPdf_extension_exits_early sampleEnv "report.docx".toList [] (by decide)

/-- C8: for every matching filename, the computed rename target differs
from the original name even after joining with the directory, so the
`old_path === new_path` skip branch (lines 46-48) can never be taken. -/
theorem rename_target_differs (dir s g1 g2 g3 : FName)
    (h : matchPattern s = some (g1, g2, g3)) :
    joinPath dir (g1 ++ g3) ≠ joinPath dir s := by
  obtain ⟨hs, hne, _, _⟩ := matchPattern_eq_some h
  intro hEq
  unfold joinPath at hEq
  have hcons := List.append_cancel_left hEq
  have hnames : g1 ++ g3 = s := by
    injection hcons
  rw [hs] at hnames
  have hlen := congrArg List.length hnames
  have hg2 : 0 < g2.length := List.length_pos.2 hne
  simp only [List.length_append, List.length_cons] at hlen
  omega

/-- Witness for C8 at the suffixed thumbnail name. -/
theorem rename_target_differs_witness :
    joinPath "/out".toList ("page_3_report".toList ++ ".jpeg".toList) ≠
      joinPath "/out".toList "page_3_report-1.jpeg".toList :=
  rename_target_differs "/out".toList "page_3_report-1.jpeg".toList
    "page_3_report".toList "1".toList ".jpeg".toList (by decide)

/-- C9: a successful match splits the filename as group 1, one hyphen,
the digit-only nonempty group 2, and the extension group 3; the stripped
`-digits` run is the one directly before the extension and contains no
further hyphen, so everything earlier — including any other
hyphen-digit segment — stays verbatim inside group 1 and is retained in
the rename target `group1 ++ group3`. -/
theorem match_strips_final_suffix (s g1 g2 g3 : FName)
    (h : matchPattern s = some (g1, g2, g3)) :
    s = g1 ++ '-' :: (g2 ++ g3) ∧ g2 ≠ [] ∧ g2.all Char.isDigit = true ∧
      '-' ∉ g2 := by
  obtain ⟨ha, hb, hc, _⟩ := matchPattern_eq_some h
  refine ⟨ha, hb, hc, fun hmem => ?_⟩
  have := List.all_eq_true.1 hc _ hmem
  exact absurd this (by decide)

/-- Witness for C9 at `page_1_a-2-3.jpeg`: the match keeps `page_1_a-2`
whole and strips only `-3`, so the target is `page_1_a-2.jpeg`. -/
theorem match_strips_final_suffix_witness :
    matchPattern "page_1_a-2-3.jpeg".toList =
        some ("page_1_a-2".toList, "3".toList, ".jpeg".toList)
    ∧ ("page_1_a-2-3.jpeg".toList =
          "page_1_a-2".toList ++ '-' :: ("3".toList ++ ".jpeg".toList)
        ∧ "3".toList ≠ [] ∧ ("3".toList).all Char.isDigit = true
        ∧ '-' ∉ "3".toList) :=
  ⟨by decide, match_strips_final_suffix _ _ _ _ (by decide)⟩

/-- C10: when the reconciler's initial directory read fails (all earlier
phases having succeeded), the error is caught and logged inside
`renameSuffixedFiles`, the final report is 0 renamed, 0 skipped,
0 errored, and the whole run still finishes with exit code 0. -/
theorem readdir_failure_graceful (env : ScriptEnv) (f : FName) (fs0 : Fs)
    (doc : Doc) (h1 : env.inputExists = true) (h2 : env.cairoExists = true)
    (h3 : env.load = some doc) (h4 : env.readdirOk = false)
    (h5 : lowerStr (extname f) = ".pdf".toList) :
    (scriptMain env [f] fs0).exitCode = 0
    ∧ (scriptMain env [f] fs0).renCounts = some ⟨0, 0, 0⟩
    ∧ RenLog.readdirError ∈ (scriptMain env [f] fs0).renLogs
    ∧ RenLog.summary 0 0 0 ∈ (scriptMain env [f] fs0).renLogs := by
  have hmain : scriptMain env [f] fs0 =
      (if lowerStr (extname f) = ".pdf".toList then
        splitPdfAndCreateThumbnails env f fs0
      else ⟨1, fs0, false, none, [], []⟩) := rfl
  rw [hmain, if_pos h5]
  unfold splitPdfAndCreateThumbnails
  rw [h1, h2, h3]
  simp only [if_true]
  unfold renameSuffixedFiles
  rw [h4]
  simp

/-- Witness for C10: the sample environment with a failing directory
read. -/
theorem readdir_failure_graceful_witness :
    (scriptMain ⟨true, true, some ⟨2, fun i => i⟩,
        fun _ => .fail 1 "err".toList, false, idealEnv, "/out".toList⟩
      ["input.pdf".toList] []).exitCode = 0
    ∧ (scriptMain ⟨true, true, some ⟨2, fun i => i⟩,
        fun _ => .fail 1 "err".toList, false, idealEnv, "/out".toList⟩
      ["input.pdf".toList] []).renCounts = some ⟨0, 0, 0⟩
    ∧ RenLog.readdirError ∈ (scriptMain ⟨true, true, some ⟨2, fun i => i⟩,
        fun _ => .fail 1 "err".toList, false, idealEnv, "/out".toList⟩
      ["input.pdf".toList] []).renLogs
    ∧ RenLog.summary 0 0 0 ∈ (scriptMain ⟨true, true, some ⟨2, fun i => i⟩,
        fun _ => .fail 1 "err".toList, false, idealEnv, "/out".toList⟩
      ["input.pdf".toList] []).renLogs :=
  readdir_failure_graceful _ "input.pdf".toList [] ⟨2, fun i => i⟩ rfl rfl rfl
    rfl (by decide)

end PDFSplitter
